import Mathlib

/-!
Verification of the GitPython fragment consisting of `git/refs/tag.py`
(tag references: `commit`, `tag`, read-only `object`, `create`, `delete`)
and `lib/git/diff.py` (the per-file diff-header regex parser and the
`diff --git` splitter).

The Python code is shallowly embedded: the regular expression
(compiled with `re.VERBOSE | re.MULTILINE`) is translated into a
deterministic token-by-token matcher.  For this particular pattern the
Python backtracking engine is equivalent to maximal-munch followed by a
literal requirement, because every repeated class (`\S+`, `\d+`,
`[0-9A-Fa-f]+`, `.+`) is immediately followed by a character that the
class can never match (a space, `%`, `.`, or a newline/end), so a
shorter-than-maximal repetition can never make the following literal
succeed.  All definitions are structurally recursive so that concrete
inputs evaluate inside the kernel.
-/

/-! ### Character classes (`re` classes, ASCII fragment) -/

/-- Python `\s` (ASCII part): the characters the `re` module treats as
whitespace in the inputs at hand. -/
def isPySpace (c : Char) : Bool :=
  c == ' ' || c == '\t' || c == '\n' || c == '\r' || c == '\x0b' || c == '\x0c'

/-- Python `\S`. -/
def isNonSpace (c : Char) : Bool := !(isPySpace c)

/-- Python `[0-9A-Fa-f]` (the `index` line hash characters). -/
def isHexChar (c : Char) : Bool :=
  c.isDigit || ('a' ≤ c && c ≤ 'f') || ('A' ≤ c && c ≤ 'F')

/-- Python `.` without `DOTALL`: any character except a newline. -/
def notNL (c : Char) : Bool := c != '\n'

/-! ### Primitive matching steps -/

/-- Match a literal string at the current position (a sequence of literal
characters in the regex). -/
def dropLit (lit cs : List Char) : Option (List Char) :=
  if lit.isPrefixOf cs then some (cs.drop lit.length) else none

/-- Match a nonempty maximal run of characters satisfying `p` (a greedy
`X+` whose continuation can never match an `X` character).  Returns the
captured token and the remainder. -/
def tok1 (p : Char → Bool) (cs : List Char) : Option (List Char × List Char) :=
  if cs.takeWhile p = [] then none else some (cs.takeWhile p, cs.dropWhile p)

/-- Python `(?:\n|$)` at the end of a header line: consume a newline if
present, else succeed exactly at the end of the input.  The returned
flag says whether the new position is at the start of a line (only after
consuming a `\n`). -/
def lineEnd (cs : List Char) : Option (List Char × Bool) :=
  match cs with
  | '\n' :: r => some (r, true)
  | [] => some ([], false)
  | _ => none

/-- Python `[ ]?`: consume a single optional space. -/
def optSpace (cs : List Char) : List Char :=
  match cs with
  | ' ' :: r => r
  | _ => cs

/-! ### The header groups of the `diff_header` regex

Each optional group of the pattern is a function from the current
position (remaining input plus an at-line-start flag for the leading
`^`) to `none` (group fails, position restored by the caller) or the
captures plus the new position. -/

/-- Group `(?:^similarity index (\d+)%\n^rename from (\S+)\n^rename to (\S+)(?:\n|$))?`. -/
def simGroup (cs : List Char) (ls : Bool) :
    Option ((List Char × List Char × List Char) × List Char × Bool) :=
  if ls then
    (dropLit ("similarity index ").toList cs).bind fun cs1 =>
    (tok1 Char.isDigit cs1).bind fun psi =>
    (dropLit ("%\n").toList psi.2).bind fun cs2 =>
    (dropLit ("rename from ").toList cs2).bind fun cs3 =>
    (tok1 isNonSpace cs3).bind fun prf =>
    (dropLit ("\n").toList prf.2).bind fun cs4 =>
    (dropLit ("rename to ").toList cs4).bind fun cs5 =>
    (tok1 isNonSpace cs5).bind fun prt =>
    (lineEnd prt.2).map fun fin =>
    ((psi.1, prf.1, prt.1), fin.1, fin.2)
  else none

/-- Group `(?:^old mode (\d+)\n^new mode (\d+)(?:\n|$))?`. -/
def modeGroup (cs : List Char) (ls : Bool) :
    Option ((List Char × List Char) × List Char × Bool) :=
  if ls then
    (dropLit ("old mode ").toList cs).bind fun cs1 =>
    (tok1 Char.isDigit cs1).bind fun pom =>
    (dropLit ("\n").toList pom.2).bind fun cs2 =>
    (dropLit ("new mode ").toList cs2).bind fun cs3 =>
    (tok1 Char.isDigit cs3).bind fun pnm =>
    (lineEnd pnm.2).map fun fin =>
    ((pom.1, pnm.1), fin.1, fin.2)
  else none

/-- Group `(?:^new file mode (.+)(?:\n|$))?`. -/
def newFileGroup (cs : List Char) (ls : Bool) :
    Option (List Char × List Char × Bool) :=
  if ls then
    (dropLit ("new file mode ").toList cs).bind fun cs1 =>
    (tok1 notNL cs1).bind fun pv =>
    (lineEnd pv.2).map fun fin =>
    (pv.1, fin.1, fin.2)
  else none

/-- Group `(?:^deleted file mode (.+)(?:\n|$))?`. -/
def delFileGroup (cs : List Char) (ls : Bool) :
    Option (List Char × List Char × Bool) :=
  if ls then
    (dropLit ("deleted file mode ").toList cs).bind fun cs1 =>
    (tok1 notNL cs1).bind fun pv =>
    (lineEnd pv.2).map fun fin =>
    (pv.1, fin.1, fin.2)
  else none

/-- Group `(?:^index ([0-9A-Fa-f]+)\.\.([0-9A-Fa-f]+)[ ]?(.+)?(?:\n|$))?`. -/
def indexGroup (cs : List Char) (ls : Bool) :
    Option ((List Char × List Char × Option (List Char)) × List Char × Bool) :=
  if ls then
    (dropLit ("index ").toList cs).bind fun cs1 =>
    (tok1 isHexChar cs1).bind fun pac =>
    (dropLit ("..").toList pac.2).bind fun cs2 =>
    (tok1 isHexChar cs2).bind fun pbc =>
    match tok1 notNL (optSpace pbc.2) with
    | some pbm =>
        (lineEnd pbm.2).map fun fin => ((pac.1, pbc.1, some pbm.1), fin.1, fin.2)
    | none =>
        (lineEnd (optSpace pbc.2)).map fun fin => ((pac.1, pbc.1, none), fin.1, fin.2)
  else none

/-- Run an optional group at the given position: if it fails the
position is left unchanged and nothing is captured (a greedy `(?:...)?`
whose failure cannot propagate). -/
def applyOpt {α : Type} (g : List Char → Bool → Option (α × List Char × Bool))
    (st : List Char × Bool) : Option α × List Char × Bool :=
  match g st.1 st.2 with
  | some als => (some als.1, als.2.1, als.2.2)
  | none => (none, st.1, st.2)

/-- The named captures of `diff_header` together with the position after
the match (`header.end()` onward, the raw body `rest`). -/
structure HeaderMatch where
  a_path : String
  b_path : String
  similarity_index : Option String
  rename_from : Option String
  rename_to : Option String
  old_mode : Option String
  new_mode : Option String
  new_file_mode : Option String
  deleted_file_mode : Option String
  a_commit : Option String
  b_commit : Option String
  b_mode : Option String
  rest : List Char
  deriving DecidableEq, Repr

/-- The optional-group tail of the pattern: given the two mandatory path
captures and the position after the mandatory line, run the five
optional groups in sequence and assemble the captures. -/
def headerOf (pa pb : List Char) (cs3 : List Char) : HeaderMatch :=
  let s1 := applyOpt simGroup (cs3, true)
  let s2 := applyOpt modeGroup s1.2
  let s3 := applyOpt newFileGroup s2.2
  let s4 := applyOpt delFileGroup s3.2
  let s5 := applyOpt indexGroup s4.2
  { a_path := String.mk pa
    b_path := String.mk pb
    similarity_index := s1.1.map fun x => String.mk x.1
    rename_from := s1.1.map fun x => String.mk x.2.1
    rename_to := s1.1.map fun x => String.mk x.2.2
    old_mode := s2.1.map fun x => String.mk x.1
    new_mode := s2.1.map fun x => String.mk x.2
    new_file_mode := s3.1.map String.mk
    deleted_file_mode := s4.1.map String.mk
    a_commit := s5.1.map fun x => String.mk x.1
    b_commit := s5.1.map fun x => String.mk x.2.1
    b_mode := (s5.1.bind fun x => x.2.2).map String.mk
    rest := s5.2.1 }

/-- The whole `diff_header` pattern.  The first line of the pattern
(`#^diff --git`) is a comment under `re.VERBOSE`, so the match starts
with the mandatory ` a/(\S+) b/(\S+)\n` line, followed by the five
optional groups. -/
def matchHeader (cs0 : List Char) : Option HeaderMatch :=
  (dropLit (" a/").toList cs0).bind fun cs1 =>
  (tok1 isNonSpace cs1).bind fun pa =>
  (dropLit (" b/").toList pa.2).bind fun cs2 =>
  (tok1 isNonSpace cs2).bind fun pb =>
  (dropLit ("\n").toList pb.2).bind fun cs3 =>
  some (headerOf pa.1 pb.1 cs3)

/-! ### Building the `Diff` record -/

/-- One `Diff(...)` record, with the fields in the order of the
constructor call in `diff.py` (the rename captures are unpacked from the
match but not passed to the constructor). -/
structure Diff where
  a_path : String
  b_path : String
  a_commit : Option String
  b_commit : Option String
  a_mode : Option String
  b_mode : Option String
  new_file : Bool
  deleted_file : Bool
  body : String
  deriving DecidableEq, Repr

/-- Python `x or y` on optional strings (`None` and `""` are falsy). -/
def pyOr (a b : Option String) : Option String :=
  match a with
  | none => b
  | some s => if s = "" then b else some s

/-- Python `bool(x)` on an optional string. -/
def pyBool (o : Option String) : Bool :=
  match o with
  | none => false
  | some s => s != ""

/-- The `Diff(repo, a_path, b_path, a_commit, b_commit, old_mode or
deleted_file_mode, new_mode or new_file_mode or b_mode, new_file,
deleted_file, diff[header.end():])` call. -/
def mkDiff (h : HeaderMatch) : Diff :=
  { a_path := h.a_path
    b_path := h.b_path
    a_commit := h.a_commit
    b_commit := h.b_commit
    a_mode := pyOr h.old_mode h.deleted_file_mode
    b_mode := pyOr (pyOr h.new_mode h.new_file_mode) h.b_mode
    new_file := pyBool h.new_file_mode
    deleted_file := pyBool h.deleted_file_mode
    body := String.mk h.rest }

/-- The error raised when `diff_header(diff)` returns `None` and the
code calls `.groups()` on it: an `AttributeError` whose text carries no
information about the failing segment. -/
def attrMsg : String := "AttributeError: NoneType object has no attribute groups"

/-- The parsing loop `for diff in ('\n' + text).split('\ndiff --git')[1:]`:
each segment must match `diff_header`; the first failure aborts the
whole call with the `AttributeError`. -/
def parseSegs : List (List Char) → Except String (List Diff)
  | [] => .ok []
  | s :: ss =>
    match matchHeader s with
    | none => .error attrMsg
    | some h =>
      match parseSegs ss with
      | .error e => .error e
      | .ok ds => .ok (mkDiff h :: ds)

/-! ### The `split('\ndiff --git')` step -/

/-- The ten characters of `diff --git`. -/
def dgChars : List Char := ['d', 'i', 'f', 'f', ' ', '-', '-', 'g', 'i', 't']

/-- The split marker `\ndiff --git`. -/
def markerChars : List Char := '\n' :: dgChars

/-- Python `str.split(sep)` on character lists, specialised to the
eleven-character marker; `k` counts marker characters still being
skipped after a match (so the recursion is structural).  Leftmost,
non-overlapping occurrences, exactly as `str.split`. -/
def splitGo (k : Nat) : List Char → List (List Char)
  | [] => [[]]
  | c :: rest =>
    match k with
    | Nat.succ k2 => splitGo k2 rest
    | 0 =>
      if markerChars.isPrefixOf (c :: rest) then
        [] :: splitGo 10 rest
      else
        match splitGo 0 rest with
        | [] => [[c]]
        | x :: xs => (c :: x) :: xs

/-- Count of the leftmost non-overlapping occurrences of the marker,
with the same skipping discipline as `splitGo`. -/
def countGo (k : Nat) : List Char → Nat
  | [] => 0
  | c :: rest =>
    match k with
    | Nat.succ k2 => countGo k2 rest
    | 0 =>
      if markerChars.isPrefixOf (c :: rest) then
        1 + countGo 10 rest
      else
        countGo 0 rest

/-- Specification-side count: the number of positions at the start of a
line where the literal `diff --git` occurs.  `atLS` records whether the
current position starts a line. -/
def countLSGo (atLS : Bool) : List Char → Nat
  | [] => 0
  | c :: rest =>
    (if atLS && dgChars.isPrefixOf (c :: rest) then 1 else 0) + countLSGo (c == '\n') rest

/-- Number of occurrences of `diff --git` at the start of a line of `text`. -/
def countLineStartMarkers (text : String) : Nat := countLSGo true text.toList

/-- The segments `('\n' + text).split('\ndiff --git')[1:]`. -/
def diffSegments (text : String) : List (List Char) :=
  (splitGo 0 ('\n' :: text.toList)).drop 1

/-- The whole parse of one diff text blob. -/
def parseDiffText (text : String) : Except String (List Diff) :=
  parseSegs (diffSegments text)

/-! ### Tag references (`git/refs/tag.py`) -/

/-- An object reached while resolving a tag reference, as classified by
its `type` token: a commit, a tag object (whose `object` attribute is
the next object it points to), or any other object with its kind token
(`"tree"`, `"blob"`).  Every object carries its identifier. -/
inductive TagTarget where
  | CommitObject (id : String)
  | TagObject (id : String) (next : TagTarget)
  | OtherObject (id : String) (kind : String)
  deriving DecidableEq, Repr

/-- The `type` token of an object. -/
def TagTarget.typeOf : TagTarget → String
  | .CommitObject _ => "commit"
  | .TagObject _ _ => "tag"
  | .OtherObject _ kind => kind

/-- The identifier of an object. -/
def TagTarget.idOf : TagTarget → String
  | .CommitObject i => i
  | .TagObject i _ => i
  | .OtherObject i _ => i

/-- Modelled from the spec: the base `Reference` class (module
`git/refs/reference.py`, not part of the visible sources) carries the
reference's name and lazily fetches the object the reference currently
points to from the backend (`_get_object`); `str(self)` is the
reference's name. -/
structure Reference where
  name : String
  target : TagTarget
  deriving DecidableEq, Repr

/-- Modelled from the spec: `Reference._get_object` fetches the current
target object from the backend. -/
def Reference.getObject (r : Reference) : TagTarget := r.target

/-- A Python `property` descriptor: a getter and an optional setter
(`property(fget)` has no setter, so assignment raises
`AttributeError`). -/
structure PyProperty (σ : Type) (α : Type) where
  fget : σ → α
  fset : Option (σ → α → σ)

/-- Reading an attribute through a property descriptor. -/
def PyProperty.get {σ α : Type} (p : PyProperty σ α) (s : σ) : α := p.fget s

/-- The message of the `AttributeError` Python raises when assigning to
a property that has no setter. -/
def attrSetMsg : String := "AttributeError: cannot set attribute"

/-- Assigning an attribute through a property descriptor: with no
setter the assignment raises and no new state is produced. -/
def PyProperty.set {σ α : Type} (p : PyProperty σ α) (s : σ) (v : α) : Except String σ :=
  match p.fset with
  | some f => .ok (f s v)
  | none => .error attrSetMsg

/-- The class-level `object = property(Reference._get_object)` line of
`TagReference`: the inherited getter, no setter. -/
def TagReference.objectProperty : PyProperty Reference TagTarget :=
  { fget := Reference.getObject, fset := none }

/-- The statement `tagref.object = v`. -/
def TagReference.setObjectAttr (r : Reference) (v : TagTarget) : Except String Reference :=
  TagReference.objectProperty.set r v

/-- The message of the `ValueError` raised by `TagReference.commit` when
the chase reaches a non-commit, non-tag object: it interpolates
`str(self)` (the reference) and `obj.type` (the kind). -/
def resolveErrMsg (selfName kind : String) : String :=
  "Cannot resolve commit as tag " ++ selfName ++ " points to a " ++ kind ++
    " object - use the `.object` property instead to access it"

/-- The `while obj.type != 'commit'` loop of `TagReference.commit`:
return the object once its type is `commit`, follow `obj.object` while
the type is `tag`, raise `ValueError` otherwise. -/
def commitLoop (selfName : String) : TagTarget → Except String TagTarget
  | .CommitObject i => .ok (.CommitObject i)
  | .TagObject _ next => commitLoop selfName next
  | .OtherObject _ kind => .error (resolveErrMsg selfName kind)

/-- The `TagReference.commit` property: start from `self.object` and run
the loop. -/
def TagReference.commit (r : Reference) : Except String TagTarget :=
  commitLoop r.name (TagReference.objectProperty.get r)

/-- The `TagReference.tag` property: the starting target itself if it is
a tag object, else `None`. -/
def TagReference.tag (r : Reference) : Option TagTarget :=
  match TagReference.objectProperty.get r with
  | .TagObject i next => some (.TagObject i next)
  | _ => none

/-- Wrap a target in a chain of tag objects (`ids` outermost first). -/
def chainTags (ids : List String) (t : TagTarget) : TagTarget :=
  match ids with
  | [] => t
  | i :: rest => .TagObject i (chainTags rest t)

/-- Substring test on character lists (used to inspect error
messages). -/
def hasSubList (pat : List Char) (cs : List Char) : Bool :=
  match cs with
  | [] => pat.isEmpty
  | _ :: rest => pat.isPrefixOf cs || hasSubList pat rest

/-- Substring test on strings. -/
def strHasSub (pat s : String) : Bool := hasSubList pat.toList s.toList

/-! ### `create` and `delete` (the backend-calling class methods)

The backend (`repo.git`) is abstracted by the outcome of each external
command: local `git tag` invocations are assumed to succeed (their
failure simply propagates and is not at issue in any claim), and a push
outcome is either success or a `GitCommandError` carrying its status. -/

/-- A backend command issued by `create`/`delete`, in order. -/
inductive GitCmd where
  | tagCreate (name : String)
  | tagDelete (names : List String)
  | push (name : String)
  | pushDelete (name : String)
  deriving DecidableEq, Repr

/-- Outcome of `repo.git.push` for one tag: success, or a
`GitCommandError` with the given status. -/
inductive PushOutcome where
  | success
  | failure (status : Int)
  deriving DecidableEq, Repr

/-- What `TagReference.create` gives back to its caller. -/
inductive CreateResult where
  | ref (path : String)
  | returnedFalse
  deriving DecidableEq, Repr

/-- `TagReference.create(repo, tag, push=...)`: run `git tag`, then if
`push` is set run `git push origin <tag>`; on a `GitCommandError` the
handler runs `if err.status == 1: pass` (a no-op) and then
`return False` — for every status.  On success it returns the new
`TagReference` at `refs/tags/<tag>`. -/
def TagReference.create (tagName : String) (push : Bool) (out : PushOutcome) :
    List GitCmd × CreateResult :=
  if push then
    (GitCmd.tagCreate tagName :: [GitCmd.push tagName],
      match out with
      | .failure s =>
        -- `if err.status == 1: pass` has no effect; `return False` is
        -- unconditional in the except block.
        if s == 1 then CreateResult.returnedFalse else CreateResult.returnedFalse
      | .success => CreateResult.ref ("refs/tags/" ++ tagName))
  else
    ([GitCmd.tagCreate tagName], CreateResult.ref ("refs/tags/" ++ tagName))

/-- What `TagReference.delete` gives back: `None` (falling off the end)
or `False` (from the except handler). -/
inductive DeleteResult where
  | retNone
  | retFalse
  deriving DecidableEq, Repr

/-- The `for tag in tags` push loop of `delete`: push each deletion in
order; on the first `GitCommandError` run the no-op status check and
`return False`, abandoning the remaining tags. -/
def deletePushLoop (f : String → PushOutcome) : List String → List GitCmd × DeleteResult
  | [] => ([], .retNone)
  | t :: ts =>
    match f t with
    | .failure s =>
      ([GitCmd.pushDelete t],
        -- `if err.status == 1: pass` has no effect here either.
        if s == 1 then DeleteResult.retFalse else DeleteResult.retFalse)
    | .success =>
      let r := deletePushLoop f ts
      (GitCmd.pushDelete t :: r.1, r.2)

/-- `TagReference.delete(repo, push, *tags)`: one `git tag -d` call for
all tags, then, if `push` is set, the push-deletion loop. -/
def TagReference.delete (push : Bool) (tags : List String) (f : String → PushOutcome) :
    List GitCmd × DeleteResult :=
  if push then
    let r := deletePushLoop f tags
    (GitCmd.tagDelete tags :: r.1, r.2)
  else
    ([GitCmd.tagDelete tags], .retNone)

/-! ### Helper lemmas for `delete` -/

theorem deletePushLoop_all_success (f : String → PushOutcome) :
    ∀ ts : List String, (∀ t ∈ ts, f t = .success) →
      deletePushLoop f ts = (ts.map GitCmd.pushDelete, .retNone) := by
  intro ts
  induction ts with
  | nil => intro _; rfl
  | cons t ts ih =>
    intro hall
    have ht : f t = .success := hall t (List.mem_cons_self t ts)
    have hts := ih fun u hu => hall u (List.mem_cons_of_mem t hu)
    simp [deletePushLoop, ht, hts]

theorem deletePushLoop_first_failure (f : String → PushOutcome) :
    ∀ (ts1 : List String) (t : String) (ts2 : List String) (s : Int),
      (∀ u ∈ ts1, f u = .success) → f t = .failure s →
      deletePushLoop f (ts1 ++ t :: ts2)
        = (ts1.map GitCmd.pushDelete ++ [GitCmd.pushDelete t], .retFalse) := by
  intro ts1
  induction ts1 with
  | nil =>
    intro t ts2 s _ hft
    simp [deletePushLoop, hft]
  | cons u ts1 ih =>
    intro t ts2 s hall hft
    have hu : f u = .success := hall u (List.mem_cons_self u ts1)
    have := ih t ts2 s (fun v hv => hall v (List.mem_cons_of_mem u hv)) hft
    simp [deletePushLoop, hu, this]

/-! ### Claim theorems about tag references -/

/-- C1: for every tag reference whose target chain is a finite sequence
of tag objects ending in a commit object, the `commit` accessor follows
each tag object's `object` link in turn and returns the terminal commit;
in particular a reference whose target is `Tag(Tag(Commit))` resolves to
that commit. -/
theorem tagref_commit_resolves_tag_chain :
    (∀ (name : String) (ids : List String) (cid : String),
      TagReference.commit ⟨name, chainTags ids (.CommitObject cid)⟩
        = .ok (.CommitObject cid))
    ∧ TagReference.commit
        ⟨"refs/tags/v1", .TagObject "t1" (.TagObject "t2" (.CommitObject "c0"))⟩
        = .ok (.CommitObject "c0") := by
  constructor
  · intro name ids cid
    induction ids with
    | nil => rfl
    | cons i rest ih =>
      simpa [chainTags, TagReference.commit, commitLoop, PyProperty.get,
        TagReference.objectProperty, Reference.getObject] using ih
  · rfl

/-- C5 (counterexample): resolving a reference whose target is a tree
object raises the `ValueError`, but the error text does not carry the
offending object's identifier (`deadbeef` does not occur in it); it
carries the tag reference's name and the object's kind instead. -/
theorem commit_error_lacks_object_id :
    TagReference.commit ⟨"refs/tags/v1", .OtherObject "deadbeef" "tree"⟩
        = .error (resolveErrMsg "refs/tags/v1" "tree")
    ∧ strHasSub "deadbeef" (resolveErrMsg "refs/tags/v1" "tree") = false
    ∧ strHasSub "tree" (resolveErrMsg "refs/tags/v1" "tree") = true
    ∧ strHasSub "refs/tags/v1" (resolveErrMsg "refs/tags/v1" "tree") = true
    ∧ strHasSub ".object" (resolveErrMsg "refs/tags/v1" "tree") = true := by
  refine ⟨rfl, by decide, by decide, by decide, by decide⟩

/-- C5 (amended): for every tag reference whose target chain reaches an
object that is neither a commit nor a tag before reaching a commit, the
`commit` accessor fails with a `ValueError` whose message names the tag
reference and the offending object's kind and directs the caller to the
lower-level `.object` accessor, instead of returning a value. -/
theorem commit_error_on_non_commit_chain :
    ∀ (name : String) (ids : List String) (oid kind : String),
      TagReference.commit ⟨name, chainTags ids (.OtherObject oid kind)⟩
        = .error (resolveErrMsg name kind) := by
  intro name ids oid kind
  induction ids with
  | nil => rfl
  | cons i rest ih =>
    simpa [chainTags, TagReference.commit, commitLoop, PyProperty.get,
      TagReference.objectProperty, Reference.getObject] using ih

/-- C6: the `tag` accessor returns the starting target object itself
(without chasing links) when that target is a tag object, and returns
`None` (absence, not an error) when the starting target is any other
kind of object. -/
theorem tag_accessor_starting_target :
    (∀ (name i : String) (next : TagTarget),
      TagReference.tag ⟨name, .TagObject i next⟩ = some (.TagObject i next))
    ∧ (∀ name i : String, TagReference.tag ⟨name, .CommitObject i⟩ = none)
    ∧ (∀ name i kind : String, TagReference.tag ⟨name, .OtherObject i kind⟩ = none) :=
  ⟨fun _ _ _ => rfl, fun _ _ => rfl, fun _ _ _ => rfl⟩

/-- C7: after a successful local tag creation, `create` with push
enabled returns `False` for a push failure of every status — status 1
and status 2 alike are caught and converted to `return False`; no
status is re-raised (the `if err.status == 1: pass` check is a no-op).
Only a successful push returns the new `TagReference`. -/
theorem create_push_failure_returns_false :
    TagReference.create "v1" true (.failure 2)
        = ([GitCmd.tagCreate "v1", GitCmd.push "v1"], .returnedFalse)
    ∧ TagReference.create "v1" true (.failure 1)
        = ([GitCmd.tagCreate "v1", GitCmd.push "v1"], .returnedFalse)
    ∧ TagReference.create "v1" true .success
        = ([GitCmd.tagCreate "v1", GitCmd.push "v1"], .ref "refs/tags/v1")
    ∧ (∀ s : Int, (TagReference.create "v1" true (.failure s)).2 = .returnedFalse) := by
  refine ⟨rfl, rfl, rfl, fun s => ?_⟩
  simp [TagReference.create]

/-- C9: `delete` with push enabled performs all local deletions first in
one backend call; if pushing the deletion of some tag fails (any status,
the benign status 1 included) it returns `False` immediately without
attempting the remaining push-deletions, and if every push succeeds it
returns `None`. -/
theorem delete_push_loop_behaviour :
    ∀ (tags : List String) (f : String → PushOutcome),
      (TagReference.delete true tags f).1.head? = some (.tagDelete tags)
      ∧ ((∀ t ∈ tags, f t = .success) →
          TagReference.delete true tags f
            = (GitCmd.tagDelete tags :: tags.map GitCmd.pushDelete, .retNone))
      ∧ (∀ (ts1 : List String) (t : String) (ts2 : List String) (s : Int),
          tags = ts1 ++ t :: ts2 → (∀ u ∈ ts1, f u = .success) → f t = .failure s →
          TagReference.delete true tags f
            = (GitCmd.tagDelete tags ::
                (ts1.map GitCmd.pushDelete ++ [GitCmd.pushDelete t]), .retFalse)) := by
  intro tags f
  refine ⟨by simp [TagReference.delete], ?_, ?_⟩
  · intro hall
    simp [TagReference.delete, deletePushLoop_all_success f tags hall]
  · intro ts1 t ts2 s htags hall hft
    subst htags
    simp [TagReference.delete, deletePushLoop_first_failure f ts1 t ts2 s hall hft]

/-- Push outcomes used by the witness for the delete claim. -/
def c9PushOutcome : String → PushOutcome :=
  fun u => if u = "b" then .failure 1 else .success

/-- C9 (witness): with tags `a`, `b`, `c` where pushing `b` fails with
the benign status 1, `delete` deletes locally in one call, pushes `a`
and `b`, then returns `False` without pushing `c`. -/
theorem delete_push_loop_behaviour_witness :
    TagReference.delete true ["a", "b", "c"] c9PushOutcome
      = (GitCmd.tagDelete ["a", "b", "c"] ::
          (["a"].map GitCmd.pushDelete ++ [GitCmd.pushDelete "b"]), .retFalse) :=
  (delete_push_loop_behaviour ["a", "b", "c"] c9PushOutcome).2.2
    ["a"] "b" ["c"] 1 (by decide) (by decide) (by decide)

/-- C10: on a tag reference the `object` attribute is read-only: reading
it delegates to the base reference's getter, and any assignment raises
an `AttributeError`, producing no updated reference. -/
theorem object_attribute_read_only :
    (∀ r : Reference, TagReference.objectProperty.get r = Reference.getObject r)
    ∧ (∀ (r : Reference) (v : TagTarget),
        TagReference.setObjectAttr r v = .error attrSetMsg) :=
  ⟨fun _ => rfl, fun _ _ => rfl⟩

/-! ### Captured tokens are nonempty -/

theorem tok1_fst_ne_nil {p : Char → Bool} {cs : List Char} {q : List Char × List Char}
    (h : tok1 p cs = some q) : q.1 ≠ [] := by
  unfold tok1 at h
  split at h
  · simp at h
  · rename_i hne
    simp only [Option.some.injEq] at h
    rw [← h]
    exact hne

theorem modeGroup_ne_nil {cs : List Char} {ls : Bool}
    {q : (List Char × List Char) × List Char × Bool}
    (h : modeGroup cs ls = some q) : q.1.1 ≠ [] ∧ q.1.2 ≠ [] := by
  cases ls with
  | false => simp [modeGroup] at h
  | true =>
    simp only [modeGroup, if_true, Option.bind_eq_some, Option.map_eq_some'] at h
    obtain ⟨cs1, _, pom, ht1, cs2, _, cs3, _, pnm, ht2, fin, _, heq⟩ := h
    rw [← heq]
    refine ⟨?_, ?_⟩
    · show pom.1 ≠ []
      exact tok1_fst_ne_nil ht1
    · show pnm.1 ≠ []
      exact tok1_fst_ne_nil ht2

theorem newFileGroup_ne_nil {cs : List Char} {ls : Bool}
    {q : List Char × List Char × Bool}
    (h : newFileGroup cs ls = some q) : q.1 ≠ [] := by
  cases ls with
  | false => simp [newFileGroup] at h
  | true =>
    simp only [newFileGroup, if_true, Option.bind_eq_some, Option.map_eq_some'] at h
    obtain ⟨cs1, _, pv, ht, fin, _, heq⟩ := h
    rw [← heq]
    show pv.1 ≠ []
    exact tok1_fst_ne_nil ht

theorem delFileGroup_ne_nil {cs : List Char} {ls : Bool}
    {q : List Char × List Char × Bool}
    (h : delFileGroup cs ls = some q) : q.1 ≠ [] := by
  cases ls with
  | false => simp [delFileGroup] at h
  | true =>
    simp only [delFileGroup, if_true, Option.bind_eq_some, Option.map_eq_some'] at h
    obtain ⟨cs1, _, pv, ht, fin, _, heq⟩ := h
    rw [← heq]
    show pv.1 ≠ []
    exact tok1_fst_ne_nil ht

theorem indexGroup_ne_nil {cs : List Char} {ls : Bool}
    {q : (List Char × List Char × Option (List Char)) × List Char × Bool}
    (h : indexGroup cs ls = some q) :
    q.1.1 ≠ [] ∧ q.1.2.1 ≠ [] ∧ (∀ m, q.1.2.2 = some m → m ≠ []) := by
  cases ls with
  | false => simp [indexGroup] at h
  | true =>
    simp only [indexGroup, if_true, Option.bind_eq_some] at h
    obtain ⟨cs1, _, pac, ht1, cs2, _, pbc, ht2, h2⟩ := h
    cases hbm : tok1 notNL (optSpace pbc.2) with
    | some pbm =>
      rw [hbm] at h2
      simp only [Option.map_eq_some'] at h2
      obtain ⟨fin, _, heq⟩ := h2
      rw [← heq]
      refine ⟨?_, ?_, ?_⟩
      · show pac.1 ≠ []
        exact tok1_fst_ne_nil ht1
      · show pbc.1 ≠ []
        exact tok1_fst_ne_nil ht2
      · intro m hm
        have hm2 : pbm.1 = m := by simpa using hm
        rw [← hm2]
        exact tok1_fst_ne_nil hbm
    | none =>
      rw [hbm] at h2
      simp only [Option.map_eq_some'] at h2
      obtain ⟨fin, _, heq⟩ := h2
      rw [← heq]
      refine ⟨?_, ?_, ?_⟩
      · show pac.1 ≠ []
        exact tok1_fst_ne_nil ht1
      · show pbc.1 ≠ []
        exact tok1_fst_ne_nil ht2
      · intro m hm
        simp at hm

theorem applyOpt_fst_eq_some {α : Type}
    {g : List Char → Bool → Option (α × List Char × Bool)}
    {st : List Char × Bool} {a : α}
    (h : (applyOpt g st).1 = some a) :
    ∃ cs ls, g st.1 st.2 = some (a, cs, ls) := by
  unfold applyOpt at h
  cases hg : g st.1 st.2 with
  | none =>
    rw [hg] at h
    exact absurd h (by simp)
  | some x =>
    rw [hg] at h
    have hxa : x.1 = a := by simpa using h
    subst hxa
    exact ⟨x.2.1, x.2.2, rfl⟩

theorem mk_ne_empty {l : List Char} (h : l ≠ []) : String.mk l ≠ "" := by
  intro he
  apply h
  have hd : (String.mk l).data = ("" : String).data := by rw [he]
  simpa using hd

/-- Every mode-like capture produced by the optional groups is a
nonempty string (the groups capture with `\d+` or `.+`). -/
theorem headerOf_ne_empty (pa pb cs3 : List Char) :
    (∀ m, (headerOf pa pb cs3).old_mode = some m → m ≠ "")
    ∧ (∀ m, (headerOf pa pb cs3).new_mode = some m → m ≠ "")
    ∧ (∀ m, (headerOf pa pb cs3).new_file_mode = some m → m ≠ "")
    ∧ (∀ m, (headerOf pa pb cs3).deleted_file_mode = some m → m ≠ "")
    ∧ (∀ m, (headerOf pa pb cs3).b_mode = some m → m ≠ "") := by
  simp only [headerOf]
  refine ⟨?_, ?_, ?_, ?_, ?_⟩
  · intro m hm
    rw [Option.map_eq_some'] at hm
    obtain ⟨x, hx, hm2⟩ := hm
    obtain ⟨cs', ls', hg⟩ := applyOpt_fst_eq_some hx
    rw [← hm2]
    exact mk_ne_empty (modeGroup_ne_nil hg).1
  · intro m hm
    rw [Option.map_eq_some'] at hm
    obtain ⟨x, hx, hm2⟩ := hm
    obtain ⟨cs', ls', hg⟩ := applyOpt_fst_eq_some hx
    rw [← hm2]
    exact mk_ne_empty (modeGroup_ne_nil hg).2
  · intro m hm
    rw [Option.map_eq_some'] at hm
    obtain ⟨x, hx, hm2⟩ := hm
    obtain ⟨cs', ls', hg⟩ := applyOpt_fst_eq_some hx
    rw [← hm2]
    exact mk_ne_empty (newFileGroup_ne_nil hg)
  · intro m hm
    rw [Option.map_eq_some'] at hm
    obtain ⟨x, hx, hm2⟩ := hm
    obtain ⟨cs', ls', hg⟩ := applyOpt_fst_eq_some hx
    rw [← hm2]
    exact mk_ne_empty (delFileGroup_ne_nil hg)
  · intro m hm
    rw [Option.map_eq_some'] at hm
    obtain ⟨a, ha, hm2⟩ := hm
    rw [Option.bind_eq_some] at ha
    obtain ⟨x, hx, hxa⟩ := ha
    obtain ⟨cs', ls', hg⟩ := applyOpt_fst_eq_some hx
    rw [← hm2]
    exact mk_ne_empty ((indexGroup_ne_nil hg).2.2 a hxa)

theorem matchHeader_eq_headerOf {cs0 : List Char} {h : HeaderMatch}
    (hm : matchHeader cs0 = some h) : ∃ pa pb cs3, h = headerOf pa pb cs3 := by
  unfold matchHeader at hm
  simp only [Option.bind_eq_some] at hm
  obtain ⟨cs1, _, pa, _, cs2, _, pb, _, cs3, _, hfin⟩ := hm
  simp only [Option.some.injEq] at hfin
  exact ⟨pa.1, pb.1, cs3, hfin.symm⟩

theorem pyOr_some_ne {m : String} (hm : m ≠ "") (b : Option String) :
    pyOr (some m) b = some m := by
  simp [pyOr, hm]

theorem pyBool_some_ne {m : String} (hm : m ≠ "") : pyBool (some m) = true := by
  simp [pyBool, hm]

/-! ### Claim theorems about the diff parser: mode resolution and flags -/

/-- The §8 example input of the specification. -/
def exampleDiffText : String :=
  "diff --git a/src/foo.py b/src/foo.py\nold mode 100644\nnew mode 100755\nindex abc123..def456 100755\n"

/-- The record the §8 example must parse to. -/
def exampleDiffRecord : Diff :=
  { a_path := "src/foo.py", b_path := "src/foo.py", a_commit := some "abc123",
    b_commit := some "def456", a_mode := some "100644", b_mode := some "100755",
    new_file := false, deleted_file := false, body := "" }

/-- C2: for every parsed diff segment, the record's before-mode equals
the old-mode capture when present and otherwise the deleted-file-mode
capture, and the after-mode equals the new-mode capture when present,
else the new-file-mode capture, else the trailing mode token of the
index line; on the spec's example input the parse yields exactly the
spec's record. -/
theorem diff_mode_resolution :
    (∀ (cs : List Char) (h : HeaderMatch), matchHeader cs = some h →
      ((h.old_mode ≠ none → (mkDiff h).a_mode = h.old_mode)
        ∧ (h.old_mode = none → (mkDiff h).a_mode = h.deleted_file_mode)
        ∧ (h.new_mode ≠ none → (mkDiff h).b_mode = h.new_mode)
        ∧ (h.new_mode = none → h.new_file_mode ≠ none →
            (mkDiff h).b_mode = h.new_file_mode)
        ∧ (h.new_mode = none → h.new_file_mode = none →
            (mkDiff h).b_mode = h.b_mode)))
    ∧ parseDiffText exampleDiffText = .ok [exampleDiffRecord] := by
  constructor
  · intro cs h hm
    obtain ⟨pa, pb, cs3, rfl⟩ := matchHeader_eq_headerOf hm
    obtain ⟨hom, hnm, hnfm, hdfm, hbm⟩ := headerOf_ne_empty pa pb cs3
    refine ⟨?_, ?_, ?_, ?_, ?_⟩
    · intro hne
      cases ho : (headerOf pa pb cs3).old_mode with
      | none => exact absurd ho hne
      | some m =>
        simp only [mkDiff, ho]
        exact pyOr_some_ne (hom m ho) _
    · intro ho
      simp only [mkDiff, ho]
      rfl
    · intro hne
      cases hn : (headerOf pa pb cs3).new_mode with
      | none => exact absurd hn hne
      | some m =>
        simp only [mkDiff, hn]
        rw [pyOr_some_ne (hnm m hn) _]
        exact pyOr_some_ne (hnm m hn) _
    · intro hn hfne
      cases hf : (headerOf pa pb cs3).new_file_mode with
      | none => exact absurd hf hfne
      | some m =>
        simp only [mkDiff, hn, hf]
        rw [show pyOr none (some m) = some m from rfl]
        exact pyOr_some_ne (hnfm m hf) _
    · intro hn hf
      simp only [mkDiff, hn, hf]
      rfl
  · rfl

/-- The single segment of the example input. -/
def c2Seg : List Char :=
  (" a/src/foo.py b/src/foo.py\nold mode 100644\nnew mode 100755\nindex abc123..def456 100755\n").toList

/-- The header match of the example segment. -/
def c2Header : HeaderMatch :=
  { a_path := "src/foo.py", b_path := "src/foo.py", similarity_index := none,
    rename_from := none, rename_to := none, old_mode := some "100644",
    new_mode := some "100755", new_file_mode := none, deleted_file_mode := none,
    a_commit := some "abc123", b_commit := some "def456", b_mode := some "100755",
    rest := [] }

/-- C2 (witness): on the example segment both mode fields are present,
so the record's modes come from `old mode`/`new mode`. -/
theorem diff_mode_resolution_witness :
    (mkDiff c2Header).a_mode = c2Header.old_mode
    ∧ (mkDiff c2Header).b_mode = c2Header.new_mode :=
  ⟨(diff_mode_resolution.1 c2Seg c2Header rfl).1 (by decide),
    ((diff_mode_resolution.1 c2Seg c2Header rfl).2.2.1) (by decide)⟩

/-- An input whose single segment carries both a `new file mode` line
and a `deleted file mode` line (the regex accepts both at once). -/
def c8Text : String :=
  "diff --git a/x b/y\nnew file mode 100644\ndeleted file mode 100755\n"

/-- The record produced for `c8Text`. -/
def c8Record : Diff :=
  { a_path := "x", b_path := "y", a_commit := none, b_commit := none,
    a_mode := some "100755", b_mode := some "100644", new_file := true,
    deleted_file := true, body := "" }

/-- C8 (counterexample): the parser produces a record with `new_file`
and `deleted_file` both true, so the two flags are not mutually
exclusive. -/
theorem diff_new_deleted_both_true :
    parseDiffText c8Text = .ok [c8Record]
    ∧ c8Record.new_file = true ∧ c8Record.deleted_file = true :=
  ⟨rfl, rfl, rfl⟩

/-- C8 (amended): for every record produced by the diff parser,
`new_file` holds exactly when a new-file-mode header field was captured
and `deleted_file` exactly when a deleted-file-mode header field was
captured; the two are not mutually exclusive, since a segment may carry
both header lines. -/
theorem diff_flag_iff_field_present :
    ∀ (cs : List Char) (h : HeaderMatch), matchHeader cs = some h →
      (mkDiff h).new_file = h.new_file_mode.isSome
      ∧ (mkDiff h).deleted_file = h.deleted_file_mode.isSome := by
  intro cs h hm
  obtain ⟨pa, pb, cs3, rfl⟩ := matchHeader_eq_headerOf hm
  obtain ⟨hom, hnm, hnfm, hdfm, hbm⟩ := headerOf_ne_empty pa pb cs3
  constructor
  · cases hf : (headerOf pa pb cs3).new_file_mode with
    | none => simp only [mkDiff, hf]; rfl
    | some m =>
      simp only [mkDiff, hf, Option.isSome_some]
      exact pyBool_some_ne (hnfm m hf)
  · cases hf : (headerOf pa pb cs3).deleted_file_mode with
    | none => simp only [mkDiff, hf]; rfl
    | some m =>
      simp only [mkDiff, hf, Option.isSome_some]
      exact pyBool_some_ne (hdfm m hf)

/-- The single segment of `c8Text`. -/
def c8Seg : List Char :=
  (" a/x b/y\nnew file mode 100644\ndeleted file mode 100755\n").toList

/-- The header match of the `c8Text` segment. -/
def c8Header : HeaderMatch :=
  { a_path := "x", b_path := "y", similarity_index := none, rename_from := none,
    rename_to := none, old_mode := none, new_mode := none,
    new_file_mode := some "100644", deleted_file_mode := some "100755",
    a_commit := none, b_commit := none, b_mode := none, rest := [] }

/-- C8 (witness): the flag-field correspondence evaluated on the
segment that carries both mode lines. -/
theorem diff_flag_iff_field_present_witness :
    (mkDiff c8Header).new_file = c8Header.new_file_mode.isSome
    ∧ (mkDiff c8Header).deleted_file = c8Header.deleted_file_mode.isSome :=
  diff_flag_iff_field_present c8Seg c8Header rfl

/-! ### Claim theorems about the diff parser: malformed segments -/

theorem parseSegs_error_of_bad_segment :
    ∀ (ss : List (List Char)) (seg : List Char),
      seg ∈ ss → matchHeader seg = none → parseSegs ss = .error attrMsg := by
  intro ss
  induction ss with
  | nil =>
    intro seg hmem _
    exact absurd hmem (List.not_mem_nil seg)
  | cons s rest ih =>
    intro seg hmem hbad
    cases hms : matchHeader s with
    | none => simp [parseSegs, hms]
    | some h =>
      rcases List.mem_cons.mp hmem with heq | hmem2
      · rw [heq] at hbad
        rw [hbad] at hms
        exact absurd hms (by simp)
      · have hrest := ih seg hmem2 hbad
        simp [parseSegs, hms, hrest]

/-- An input whose only segment is malformed (bad segment at index 0). -/
def c4TextA : String := "diff --git garbage\n"

/-- An input whose second segment is malformed (bad segment at index 1). -/
def c4TextB : String := "diff --git a/x b/y\nbody\ndiff --git garbage\n"

/-- C4 (counterexample): a malformed segment makes the parse fail with
the constant `AttributeError` from calling `.groups()` on `None`; the
error is the same whether the offending segment is the first or the
second one, and its text contains no digit, so it cannot identify the
offending segment's position, and it is not a dedicated
malformed-header error. -/
theorem diff_parse_error_positionless :
    parseDiffText c4TextA = .error attrMsg
    ∧ parseDiffText c4TextB = .error attrMsg
    ∧ (∀ d ∈ attrMsg.toList, !d.isDigit) :=
  ⟨rfl, rfl, by decide⟩

/-- C4 (amended): for every input containing a segment whose text does
not match the mandatory path-pair line at its start, the parser raises
an error (the `AttributeError` produced by calling `.groups()` on the
failed match), aborting the whole parse for that call — it never
silently skips the segment and never returns a partial record list —
but the error does not identify the offending segment's position. -/
theorem diff_parse_aborts_on_bad_segment :
    ∀ (text : String) (seg : List Char),
      seg ∈ diffSegments text → matchHeader seg = none →
      parseDiffText text = .error attrMsg := by
  intro text seg hmem hbad
  exact parseSegs_error_of_bad_segment (diffSegments text) seg hmem hbad

/-- C4 (witness): the abort theorem applied to the input whose second
segment is malformed. -/
theorem diff_parse_aborts_on_bad_segment_witness :
    parseDiffText c4TextB = .error attrMsg :=
  diff_parse_aborts_on_bad_segment c4TextB (" garbage\n").toList
    (by decide) (by decide)

/-! ### Counting segments: the split produces one segment per
line-start occurrence of the marker -/

theorem splitGo_ne_nil : ∀ (cs : List Char) (k : Nat), splitGo k cs ≠ [] := by
  intro cs
  induction cs with
  | nil => intro k; simp [splitGo]
  | cons c rest ih =>
    intro k
    cases k with
    | succ k2 => simpa [splitGo] using ih k2
    | zero =>
      by_cases hp : markerChars.isPrefixOf (c :: rest) = true
      · simp [splitGo, hp]
      · simp only [splitGo, hp, if_false, Bool.false_eq_true]
        cases hs : splitGo 0 rest with
        | nil => simp
        | cons x xs => simp

theorem length_splitGo : ∀ (cs : List Char) (k : Nat),
    (splitGo k cs).length = countGo k cs + 1 := by
  intro cs
  induction cs with
  | nil => intro k; simp [splitGo, countGo]
  | cons c rest ih =>
    intro k
    cases k with
    | succ k2 => simpa [splitGo, countGo] using ih k2
    | zero =>
      by_cases hp : markerChars.isPrefixOf (c :: rest) = true
      · have h10 := ih 10
        simp [splitGo, countGo, hp, h10]
        omega
      · simp only [splitGo, countGo, hp, if_false, Bool.false_eq_true]
        cases hs : splitGo 0 rest with
        | nil => exact absurd hs (splitGo_ne_nil rest 0)
        | cons x xs =>
          have h0 := ih 0
          rw [hs] at h0
          simpa using h0

theorem countGo_skip : ∀ (cs : List Char) (k : Nat),
    countGo k cs = countGo 0 (cs.drop k) := by
  intro cs
  induction cs with
  | nil => intro k; simp [countGo]
  | cons c rest ih =>
    intro k
    cases k with
    | zero => simp
    | succ k2 => simpa [countGo] using ih k2

theorem countLSGo_walk : ∀ (ds rest : List Char), (∀ c ∈ ds, c ≠ '\n') →
    countLSGo false (ds ++ rest) = countLSGo false rest := by
  intro ds
  induction ds with
  | nil => intro rest _; rfl
  | cons d ds ih =>
    intro rest hall
    have hd : (d == '\n') = false :=
      beq_eq_false_iff_ne.mpr (hall d (List.mem_cons_self d ds))
    simp [countLSGo, hd, ih rest (fun c hc => hall c (List.mem_cons_of_mem d hc))]

theorem countLSGo_dg_step (rest : List Char) :
    countLSGo true (dgChars ++ rest) = 1 + countLSGo false rest := by
  simp [dgChars, countLSGo, List.isPrefixOf_iff_prefix]

theorem countGo_eq_countLSGo_aux : ∀ (n : Nat) (cs : List Char), cs.length ≤ n →
    countGo 0 cs = countLSGo false cs
    ∧ countGo 0 ('\n' :: cs) = countLSGo true cs := by
  intro n
  induction n with
  | zero =>
    intro cs hlen
    have hnil : cs = [] := List.eq_nil_of_length_eq_zero (Nat.le_zero.mp hlen)
    subst hnil
    exact ⟨rfl, by decide⟩
  | succ n ih =>
    intro cs hlen
    constructor
    · cases cs with
      | nil => rfl
      | cons c rest =>
        have hlen2 : rest.length ≤ n := by simp at hlen; omega
        by_cases hc : c = '\n'
        · subst hc
          have h2 := (ih rest hlen2).2
          rw [h2]
          simp [countLSGo]
        · have hcf : (c == '\n') = false := beq_eq_false_iff_ne.mpr hc
          have hmpc : ¬(markerChars <+: (c :: rest)) := by
            intro hcontra
            rw [show markerChars = '\n' :: dgChars from rfl] at hcontra
            exact absurd (List.cons_prefix_cons.mp hcontra).1 (Ne.symm hc)
          have h1 := (ih rest hlen2).1
          have lhs1 : countGo 0 (c :: rest) = countGo 0 rest := by
            simp [countGo, hmpc]
          rw [lhs1, h1]
          simp [countLSGo, hcf]
    · by_cases hp : dgChars <+: cs
      · obtain ⟨rest, hrest⟩ := hp
        subst hrest
        have hmp : markerChars <+: ('\n' :: (dgChars ++ rest)) := by
          simp [markerChars, List.cons_prefix_cons]
        have hlen10 : rest.length ≤ n := by
          simp [dgChars] at hlen
          omega
        have h1 := (ih rest hlen10).1
        have hdrop : (dgChars ++ rest).drop 10 = rest := by
          rw [show (10 : Nat) = dgChars.length from rfl]
          exact List.drop_left _ _
        calc countGo 0 ('\n' :: (dgChars ++ rest))
            = 1 + countGo 10 (dgChars ++ rest) := by simp [countGo, hmp]
          _ = 1 + countGo 0 rest := by rw [countGo_skip, hdrop]
          _ = 1 + countLSGo false rest := by rw [h1]
          _ = countLSGo true (dgChars ++ rest) := (countLSGo_dg_step rest).symm
      · have hmp : ¬(markerChars <+: ('\n' :: cs)) := by
          simpa [markerChars, List.cons_prefix_cons] using hp
        cases cs with
        | nil => simp [countGo, hmp, countLSGo]
        | cons c rest =>
          have hlen2 : rest.length ≤ n := by simp at hlen; omega
          by_cases hc : c = '\n'
          · subst hc
            have h2 := (ih rest hlen2).2
            have hdg : ¬(dgChars <+: ('\n' :: rest)) := by
              intro hcontra
              rw [show dgChars = 'd' :: ['i', 'f', 'f', ' ', '-', '-', 'g', 'i', 't'] from rfl]
                at hcontra
              exact absurd (List.cons_prefix_cons.mp hcontra).1 (by decide)
            have lhs1 : countGo 0 ('\n' :: '\n' :: rest) = countGo 0 ('\n' :: rest) := by
              simp [countGo, hmp]
            rw [lhs1, h2]
            simp [countLSGo, hdg, List.isPrefixOf_iff_prefix]
          · have hcf : (c == '\n') = false := beq_eq_false_iff_ne.mpr hc
            have hmpc : ¬(markerChars <+: (c :: rest)) := by
              intro hcontra
              rw [show markerChars = '\n' :: dgChars from rfl] at hcontra
              exact absurd (List.cons_prefix_cons.mp hcontra).1 (Ne.symm hc)
            have h1 := (ih rest hlen2).1
            have lhs1 : countGo 0 ('\n' :: c :: rest) = countGo 0 (c :: rest) := by
              simp [countGo, hmp]
            have lhs2 : countGo 0 (c :: rest) = countGo 0 rest := by
              simp [countGo, hmpc]
            rw [lhs1, lhs2, h1]
            simp [countLSGo, hcf, List.isPrefixOf_iff_prefix, hp]

theorem countGo_marker_eq (cs : List Char) :
    countGo 0 ('\n' :: cs) = countLSGo true cs :=
  (countGo_eq_countLSGo_aux cs.length cs le_rfl).2

theorem parseSegs_ok_forall2 : ∀ (ss : List (List Char)) (ds : List Diff),
    parseSegs ss = .ok ds →
    List.Forall₂ (fun s d => (matchHeader s).map mkDiff = some d) ss ds := by
  intro ss
  induction ss with
  | nil =>
    intro ds h
    simp only [parseSegs, Except.ok.injEq] at h
    rw [← h]
    exact List.Forall₂.nil
  | cons s rest ih =>
    intro ds h
    cases hms : matchHeader s with
    | none => simp [parseSegs, hms] at h
    | some hh =>
      simp only [parseSegs, hms] at h
      cases hps : parseSegs rest with
      | error e =>
        rw [hps] at h
        simp at h
      | ok ds2 =>
        rw [hps] at h
        simp only [Except.ok.injEq] at h
        rw [← h]
        exact List.Forall₂.cons (by simp [hms]) (ih ds2 hps)

/-- C3: if the parse of a text succeeds, it yields exactly one record
per occurrence of `diff --git` at the start of a line, and the records
correspond one-to-one, in input order, to the post-marker segments of
the split (the marker and anything before its first occurrence having
been discarded by the split). -/
theorem diff_parse_count_and_order :
    ∀ (text : String) (ds : List Diff), parseDiffText text = .ok ds →
      ds.length = countLineStartMarkers text
      ∧ List.Forall₂ (fun seg d => (matchHeader seg).map mkDiff = some d)
          (diffSegments text) ds := by
  intro text ds h
  have hf := parseSegs_ok_forall2 (diffSegments text) ds h
  refine ⟨?_, hf⟩
  have hlen := List.Forall₂.length_eq hf
  rw [← hlen]
  unfold diffSegments countLineStartMarkers
  rw [List.length_drop, length_splitGo, countGo_marker_eq]
  simp

/-- An input with junk before the first marker and two segments. -/
def c3Text : String :=
  "junk\ndiff --git a/x b/y\nbody here\ndiff --git a/p b/q\n"

/-- The two records `c3Text` parses to, in input order. -/
def c3Records : List Diff :=
  [{ a_path := "x", b_path := "y", a_commit := none, b_commit := none,
     a_mode := none, b_mode := none, new_file := false, deleted_file := false,
     body := "body here" },
   { a_path := "p", b_path := "q", a_commit := none, b_commit := none,
     a_mode := none, b_mode := none, new_file := false, deleted_file := false,
     body := "" }]

/-- C3 (witness): the count-and-order theorem evaluated on a concrete
input with two line-start markers and leading junk. -/
theorem diff_parse_count_and_order_witness :
    c3Records.length = countLineStartMarkers c3Text
    ∧ List.Forall₂ (fun seg d => (matchHeader seg).map mkDiff = some d)
        (diffSegments c3Text) c3Records :=
  diff_parse_count_and_order c3Text c3Records rfl
